import Mathlib

/-!
# Verification of the inventory-management backend

Shallow embedding of `src/backend/main.py` (a small FastAPI inventory
service working over two CSV files) together with proofs of the
specification claims.

Modelling conventions:
* CSV rows are structures whose fields are all `String`, exactly as
  `csv.DictReader` delivers them.
* Python `int(...)` applied to a string is modelled by `parseInt`
  (strip ASCII whitespace, optional sign, decimal digits), returning
  `none` where Python raises `ValueError`.
* Python `float(...)` applied to a price-like string is modelled by
  `parseFloat`, an exact decimal parser into `ℚ` (the idealisation of the
  decimal arithmetic the program performs; plain decimal literals only).
* Python `round(x, 2)` is modelled by `round2 : ℚ → ℚ` (round half to
  even at two decimal places) and `str(...)` of such a two-decimal value
  by `printFloat2` (shortest decimal form, as Python prints floats whose
  value has at most two decimal places).
* Python `str(...)` of an `int` is `intToStr`.
* The durable state (inventory file plus append-only sales file) is a
  `World`; each operation either leaves it unchanged (every failure
  path raises before any write) or performs its writes.
-/

namespace Inventory

set_option maxRecDepth 40000

/-! ## Characters, Python string stripping, and decimal parsing -/

/-- ASCII whitespace as stripped by Python `str.strip()`. -/
def pySpace (c : Char) : Bool :=
  c.toNat = 32 || (9 ≤ c.toNat && c.toNat ≤ 13)

/-- Python `str.strip()` on the character sequence. -/
def pyStrip (cs : List Char) : List Char :=
  ((cs.dropWhile pySpace).reverse.dropWhile pySpace).reverse

/-- Decimal digit test (`'0'`–`'9'`). -/
def isDigitChar (c : Char) : Bool :=
  48 ≤ c.toNat && c.toNat ≤ 57

/-- The character for a decimal digit. -/
def digitChar (d : Nat) : Char :=
  match d with
  | 0 => '0' | 1 => '1' | 2 => '2' | 3 => '3' | 4 => '4'
  | 5 => '5' | 6 => '6' | 7 => '7' | 8 => '8' | _ => '9'

/-- Decimal rendering of a natural number (Python `str` on a
nonnegative `int`). -/
def natToStr (n : Nat) : String :=
  if n = 0 then "0" else ⟨((Nat.digits 10 n).map digitChar).reverse⟩

/-- Python `str` on an `int`. -/
def intToStr (n : Int) : String :=
  if n < 0 then "-" ++ natToStr n.natAbs else natToStr n.toNat

/-- Accumulating decimal parse; fails at the first non-digit. -/
def parseDigitsAcc : Nat → List Char → Option Nat
  | acc, [] => some acc
  | acc, c :: cs =>
      if isDigitChar c then parseDigitsAcc (acc * 10 + (c.toNat - 48)) cs
      else none

/-- Parse a nonempty all-digit character list. -/
def parseNatDigits (cs : List Char) : Option Nat :=
  match cs with
  | [] => none
  | _ => parseDigitsAcc 0 cs

/-- Python `int(...)` on a string: strip, optional sign, digits. -/
def parseInt (s : String) : Option Int :=
  match pyStrip s.data with
  | [] => none
  | c :: rest =>
    if c = '-' then (parseNatDigits rest).map (fun n => -(n : Int))
    else if c = '+' then (parseNatDigits rest).map (fun n => (n : Int))
    else (parseNatDigits (c :: rest)).map (fun n => (n : Int))

/-- Value of an all-digit list (only used under a digits guard). -/
def natValDigits (cs : List Char) : Nat :=
  cs.foldl (fun a c => a * 10 + (c.toNat - 48)) 0

/-- Value of the fractional digits `d₁d₂…` as `0.d₁d₂…`. -/
def fracValDigits (cs : List Char) : ℚ :=
  cs.foldr (fun c a => ((c.toNat - 48 : Nat) + a) / 10) 0

/-- Unsigned decimal literal: `digits`, `digits.`, `digits.digits`
or `.digits`. -/
def parseDecimal (cs : List Char) : Option ℚ :=
  let intPart := cs.takeWhile isDigitChar
  let rest := cs.dropWhile isDigitChar
  match rest with
  | [] => if intPart.isEmpty then none else some (natValDigits intPart)
  | '.' :: frac =>
      if frac.all isDigitChar && !(intPart.isEmpty && frac.isEmpty) then
        some ((natValDigits intPart : ℚ) + fracValDigits frac)
      else none
  | _ => none

/-- Python `float(...)` on a plain decimal string, exactly in `ℚ`. -/
def parseFloat (s : String) : Option ℚ :=
  match pyStrip s.data with
  | '-' :: rest => (parseDecimal rest).map Neg.neg
  | '+' :: rest => parseDecimal rest
  | cs => parseDecimal cs

/-! ## Rounding and printing of two-decimal amounts -/

/-- Round to the nearest integer, ties to even (Python `round`). -/
def roundHalfEven (q : ℚ) : Int :=
  let f := ⌊q⌋
  let r := q - f
  if r < 1/2 then f
  else if 1/2 < r then f + 1
  else if f % 2 = 0 then f else f + 1

/-- Python `round(x, 2)` on the idealised decimal value. -/
def round2 (q : ℚ) : ℚ :=
  (roundHalfEven (q * 100) : ℚ) / 100

/-- Python `str(...)` of a float whose value is a multiple of `1/100`:
shortest decimal form, always with at least one fractional digit. -/
def printFloat2 (q : ℚ) : String :=
  let k : Int := ⌊q * 100⌋
  let sign := if k < 0 then "-" else ""
  let m := k.natAbs
  let ip := natToStr (m / 100)
  let fr := m % 100
  let frs :=
    if fr % 10 = 0 then natToStr (fr / 10)
    else if fr < 10 then "0" ++ natToStr fr
    else natToStr fr
  sign ++ ip ++ "." ++ frs

/-! ## Price normalisation -/

/-- Does the string begin with the currency marker (`str.startswith("$")`)? -/
def startsWithDollar (s : String) : Bool :=
  match s.data with
  | '$' :: _ => true
  | _ => false

/-- `s.replace("$", "")`: drop every `'$'`. -/
def stripDollar (s : String) : String :=
  ⟨s.data.filter (fun c => c ≠ '$')⟩

/-- Prepend the currency marker when absent (`main.py` lines 80–81,
103–104). -/
def normalizePrice (s : String) : String :=
  if startsWithDollar s then s else "$" ++ s

/-- Decidable equality of `Except` results, for evaluating the
operations on concrete inputs. -/
instance {ε α : Type} [DecidableEq ε] [DecidableEq α] : DecidableEq (Except ε α) :=
  fun a b =>
    match a, b with
    | .error e1, .error e2 => decidable_of_iff (e1 = e2) (by simp)
    | .error _, .ok _ => isFalse (by simp)
    | .ok _, .error _ => isFalse (by simp)
    | .ok a1, .ok a2 => decidable_of_iff (a1 = a2) (by simp)

/-! ## Data model: CSV rows and the durable state -/

/-- One row of `inventory.csv` as `csv.DictReader` yields it. -/
structure Item where
  id : String
  name : String
  quantity : String
  price : String
  total_investment : String
  sold : String
deriving DecidableEq, Repr

/-- One row of `sales_history.csv`. -/
structure SaleEntry where
  date : String
  item_id : String
  item_name : String
  sold_quantity : String
  amount : String
deriving DecidableEq, Repr

/-- The durable state: the inventory file and the append-only sales
file. -/
structure World where
  inventory : List Item
  ledger : List SaleEntry
deriving DecidableEq, Repr

/-- `add_sale_record` (main.py 48–57): the row appended to the sales
file — today's date, the id and name, `qty`, and `round(amount, 2)`. -/
def add_sale_record (today item_id item_name : String) (qty : Int) (amount : ℚ) :
    SaleEntry :=
  { date := today, item_id := item_id, item_name := item_name,
    sold_quantity := intToStr qty, amount := printFloat2 (round2 amount) }

/-! ## Search -/

/-- Does `pat` start the list `cs`? -/
def listLeads : List Char → List Char → Bool
  | [], _ => true
  | _ :: _, [] => false
  | a :: as, b :: bs => a == b && listLeads as bs

/-- Does `pat` occur contiguously in `hay` (Python `in` on strings)? -/
def containsSub (pat : List Char) : List Char → Bool
  | [] => listLeads pat []
  | c :: rest => listLeads pat (c :: rest) || containsSub pat rest

/-- Python `str.lower()` (character-wise). -/
def strLower (s : String) : String :=
  ⟨s.data.map Char.toLower⟩

/-- `search_items` (main.py 71–74): case-insensitive substring match
against name or id. -/
def search_items (query : String) (items : List Item) : List Item :=
  let query_lower := strLower query
  items.filter (fun item =>
    containsSub query_lower.data (strLower item.name).data ||
    containsSub query_lower.data (strLower item.id).data)

/-! ## Add -/

/-- Python `max(l, default=d)`. -/
def pymax (l : List Int) (d : Int) : Int :=
  match l with
  | [] => d
  | h :: t => t.foldl max h

/-- Left-pad with zeros to width `w`. -/
def padZeros (w : Nat) (s : String) : String :=
  ⟨List.replicate (w - s.data.length) '0'⟩ ++ s

/-- Python format of an `int` with spec `03`: zero-pad the digits so
that the whole rendering (sign included) has width at least 3. -/
def formatId (n : Int) : String :=
  if n < 0 then "-" ++ padZeros 2 (natToStr n.natAbs)
  else padZeros 3 (natToStr n.toNat)

/-- The id allocation of `add_item` (main.py 87): `"001"` for an empty
store, otherwise `max` of the parsed ids plus one, formatted with `03`;
`none` when some stored id fails to parse (Python raises). -/
def nextId (items : List Item) : Option String :=
  if items.isEmpty then some "001"
  else (items.mapM (fun i => parseInt i.id)).map (fun ids => formatId (pymax ids 0 + 1))

/-- The payload of a POST `/items` request. -/
structure AddInput where
  name : String
  quantity : String
  price : String

inductive AddErr
  | quantityBelowMinimum
  | corruptQuantity
  | corruptPrice
  | corruptStoredId
deriving DecidableEq, Repr

/-- `add_item` (main.py 76–91). On success returns the new store and
the assigned id. `corruptQuantity`/`corruptPrice`/`corruptStoredId`
are the uncaught `ValueError` paths. -/
def add_item (inp : AddInput) (items : List Item) : Except AddErr (List Item × String) :=
  match parseInt inp.quantity with
  | none => .error .corruptQuantity
  | some quantity_num =>
    if quantity_num < 10 then .error .quantityBelowMinimum
    else
      let price := normalizePrice inp.price
      match parseFloat (stripDollar price) with
      | none => .error .corruptPrice
      | some price_num =>
        let total_investment := printFloat2 (round2 ((quantity_num : ℚ) * price_num))
        match nextId items with
        | none => .error .corruptStoredId
        | some next_id =>
          .ok (items ++ [{ id := next_id, name := inp.name, quantity := inp.quantity,
                           price := price, total_investment := total_investment,
                           sold := "0" }], next_id)

/-! ## Update -/

/-- The payload of a PUT `/items/\x7bitem_id\x7d` request: each field
optional (partial update). -/
structure UpdateInput where
  name : Option String
  quantity : Option String
  price : Option String

inductive UpdErr
  | recordNotFound
  | corruptPrice
  | corruptQuantity
deriving DecidableEq, Repr

/-- Body of the `update_item` loop for the matching record
(main.py 100–108). -/
def updateCheck (inp : UpdateInput) (i : Item) : Except UpdErr Item :=
  let name := inp.name.getD i.name
  let quantity := inp.quantity.getD i.quantity
  let price_str := normalizePrice (inp.price.getD i.price)
  match parseFloat (stripDollar price_str) with
  | none => .error .corruptPrice
  | some price_num =>
    match parseInt quantity with
    | none => .error .corruptQuantity
    | some quantity_num =>
      .ok { i with
            name := name, quantity := quantity, price := price_str,
            total_investment := printFloat2 (round2 ((quantity_num : ℚ) * price_num)) }

/-- Outcome of a first-match traversal. -/
inductive LoopOut (ε α : Type)
  | notFound
  | fail (e : ε)
  | found (a : α)
deriving DecidableEq, Repr

/-- The `for i in items` loop of `update_item` (main.py 98–110):
first match is rewritten, the rest kept, `break` afterwards. -/
def updateLoop (item_id : String) (inp : UpdateInput) : List Item → LoopOut UpdErr (List Item)
  | [] => .notFound
  | i :: rest =>
    if i.id = item_id then
      match updateCheck inp i with
      | .error e => .fail e
      | .ok i2 => .found (i2 :: rest)
    else
      match updateLoop item_id inp rest with
      | .notFound => .notFound
      | .fail e => .fail e
      | .found rest2 => .found (i :: rest2)

/-- `update_item` (main.py 94–114). -/
def update_item (item_id : String) (inp : UpdateInput) (items : List Item) :
    Except UpdErr (List Item) :=
  match updateLoop item_id inp items with
  | .notFound => .error .recordNotFound
  | .fail e => .error e
  | .found items2 => .ok items2

/-! ## Delete -/

inductive DelErr
  | recordNotFound
deriving DecidableEq, Repr

/-- `delete_item` (main.py 116–123): keep the rows whose id differs;
404 when nothing was removed. -/
def delete_item (item_id : String) (items : List Item) : Except DelErr (List Item) :=
  let new_items := items.filter (fun i => i.id != item_id)
  if new_items.length = items.length then .error .recordNotFound
  else .ok new_items

/-! ## Sell -/

inductive SellErr
  | missingQuantity
  | invalidQuantityFormat
  | nonPositiveQuantity
  | recordNotFound
  | corruptQuantity
  | insufficientStock (available : Int)
  | corruptPrice
  | corruptSold
  | corruptInvestment
deriving DecidableEq, Repr

/-- Body of the `sell_item` loop for the matching record
(main.py 147–167): parse the stored quantity, check stock, parse the
price, mutate the three fields, and build the ledger row.
`corruptSold`/`corruptInvestment` are the uncaught `ValueError` paths
of lines 163–164. -/
def sellCheck (item_id : String) (sold_qty : Int) (today : String) (item : Item) :
    Except SellErr (Item × SaleEntry) :=
  match parseInt item.quantity with
  | none => .error .corruptQuantity
  | some current_qty =>
    if sold_qty > current_qty then .error (.insufficientStock current_qty)
    else
      match parseFloat (stripDollar item.price) with
      | none => .error .corruptPrice
      | some price_per_unit =>
        match parseInt item.sold with
        | none => .error .corruptSold
        | some sold0 =>
          match parseFloat item.total_investment with
          | none => .error .corruptInvestment
          | some ti =>
            let item2 := { item with
              quantity := intToStr (current_qty - sold_qty),
              sold := intToStr (sold0 + sold_qty),
              total_investment :=
                printFloat2 (round2 (ti - (sold_qty : ℚ) * price_per_unit)) }
            .ok (item2,
              add_sale_record today item_id item.name sold_qty
                ((sold_qty : ℚ) * price_per_unit))

/-- The `for item in items` loop of `sell_item` (main.py 145–170). -/
def sellLoop (item_id : String) (sold_qty : Int) (today : String) :
    List Item → LoopOut SellErr (List Item × SaleEntry)
  | [] => .notFound
  | item :: rest =>
    if item.id = item_id then
      match sellCheck item_id sold_qty today item with
      | .error e => .fail e
      | .ok pair => .found (pair.1 :: rest, pair.2)
    else
      match sellLoop item_id sold_qty today rest with
      | .notFound => .notFound
      | .fail e => .fail e
      | .found pair => .found (item :: pair.1, pair.2)

/-- `sell_item` (main.py 126–178) acting on the durable state: every
failure raises before any write, so it returns the old `World`; on
success the ledger row has been appended (line 167) and the rewritten
inventory saved (line 176). -/
def sell_item (today item_id : String) (data : Option String) (w : World) :
    World × Except SellErr Int :=
  match data with
  | none => (w, .error .missingQuantity)
  | some raw =>
    if pyStrip raw.data = [] then (w, .error .missingQuantity)
    else
      match parseInt raw with
      | none => (w, .error .invalidQuantityFormat)
      | some sold_qty =>
        if sold_qty ≤ 0 then (w, .error .nonPositiveQuantity)
        else
          match sellLoop item_id sold_qty today w.inventory with
          | .notFound => (w, .error .recordNotFound)
          | .fail e => (w, .error e)
          | .found pair =>
            ({ inventory := pair.1, ledger := w.ledger ++ [pair.2] }, .ok sold_qty)

/-! ## Sales history -/

/-- One step of the dict accumulation `sales[date] += qty`
(main.py 204–206), on an insertion-ordered association list. -/
def addSale (sales : List (String × Int)) (date : String) (qty : Int) :
    List (String × Int) :=
  match sales with
  | [] => [(date, qty)]
  | (d, q) :: rest =>
      if d = date then (d, q + qty) :: rest else (d, q) :: addSale rest date qty

/-- The row loop of `sales_history` (main.py 201–206); `none` when a
stored `sold_quantity` fails to parse (Python raises). -/
def buildSales : List SaleEntry → List (String × Int) → Option (List (String × Int))
  | [], sales => some sales
  | row :: rest, sales =>
    match parseInt row.sold_quantity with
    | none => none
    | some qty => buildSales rest (addSale sales row.date qty)

/-- `sales_history` (main.py 195–209): accumulate per-date totals,
then emit them sorted ascending by date. -/
def sales_history (rows : List SaleEntry) : Option (List (String × Int)) :=
  (buildSales rows []).map (List.insertionSort (fun p q => p.1 ≤ q.1))

/-! ## Operation sequences over the durable state -/

/-- One inbound mutating operation. -/
inductive Op
  | addOp (inp : AddInput)
  | updateOp (item_id : String) (inp : UpdateInput)
  | deleteOp (item_id : String)
  | sellOp (today item_id : String) (data : Option String)

/-- Apply one operation to the durable state; failed operations write
nothing. -/
def applyOp (w : World) : Op → World
  | .addOp inp =>
    match add_item inp w.inventory with
    | .ok pair => { w with inventory := pair.1 }
    | .error _ => w
  | .updateOp item_id inp =>
    match update_item item_id inp w.inventory with
    | .ok items2 => { w with inventory := items2 }
    | .error _ => w
  | .deleteOp item_id =>
    match delete_item item_id w.inventory with
    | .ok items2 => { w with inventory := items2 }
    | .error _ => w
  | .sellOp today item_id data => (sell_item today item_id data w).1

/-- The state after a sequence of operations from the freshly created
empty files (main.py 22–30). -/
def runOps (ops : List Op) : World :=
  ops.foldl applyOp { inventory := [], ledger := [] }

/-! ## Specification-side functions and sample data -/

/-- Every stored `sold` field parses to a non-negative integer. -/
def SoldOK (items : List Item) : Prop :=
  ∀ r ∈ items, ∃ n : Int, parseInt r.sold = some n ∧ 0 ≤ n

/-- Total quantity sold on date `d` according to the parsed ledger. -/
def sumFor (f : SaleEntry → Int) (rows : List SaleEntry) (d : String) : Int :=
  ((rows.filter (fun r => r.date = d)).map f).sum

/-- Lookup in the insertion-ordered association list built by
`buildSales` (the Python dict). -/
def dlookup (d : String) : List (String × Int) → Option Int
  | [] => none
  | (d2, q) :: rest => if d2 = d then some q else dlookup d rest

/-- The parsed sold quantity of a ledger row (with default, used only
where the parse is known to succeed). -/
def qtyOf (r : SaleEntry) : Int :=
  (parseInt r.sold_quantity).getD 0

/-- Sample ledger rows: two dates, the earlier one with two entries. -/
def rowsW : List SaleEntry :=
  [⟨"2026-01-01", "001", "A", "2", "11.0"⟩,
   ⟨"2026-01-02", "001", "A", "3", "16.5"⟩,
   ⟨"2026-01-01", "002", "B", "5", "10.0"⟩]

/-- Sample records for the concrete instances. -/
def itemA : Item :=
  { id := "001", name := "Vinyl", quantity := "20", price := "$5.5",
    total_investment := "110.0", sold := "0" }

def itemB : Item :=
  { id := "002", name := "CD", quantity := "15", price := "$2.0",
    total_investment := "30.0", sold := "3" }

def itemC : Item :=
  { id := "005", name := "Tape", quantity := "12", price := "$1.0",
    total_investment := "12.0", sold := "1" }

/-- Sample durable state. -/
def worldAB : World :=
  { inventory := [itemA, itemB], ledger := [] }

/-! ## Decimal rendering round-trips -/

theorem digitChar_digit (d : Nat) (h : d < 10) :
    isDigitChar (digitChar d) = true ∧ (digitChar d).toNat - 48 = d ∧
    pySpace (digitChar d) = false ∧ digitChar d ≠ '-' ∧ digitChar d ≠ '+' := by
  interval_cases d <;> decide

theorem parseDigitsAcc_append (xs ys : List Char) (acc : Nat) :
    parseDigitsAcc acc (xs ++ ys) =
      (parseDigitsAcc acc xs).bind (fun a => parseDigitsAcc a ys) := by
  induction xs generalizing acc with
  | nil => simp [parseDigitsAcc]
  | cons c cs ih =>
    simp only [List.cons_append, parseDigitsAcc]
    by_cases h : isDigitChar c = true
    · simp [h, ih]
    · simp [h]

theorem parseDigitsAcc_render (ds : List Nat) (h : ∀ d ∈ ds, d < 10) (acc : Nat) :
    parseDigitsAcc acc ((ds.map digitChar).reverse) =
      some (acc * 10 ^ ds.length + Nat.ofDigits 10 ds) := by
  induction ds generalizing acc with
  | nil => simp [parseDigitsAcc, Nat.ofDigits]
  | cons d ds ih =>
    have hd := digitChar_digit d (h d (by simp))
    have hds : ∀ x ∈ ds, x < 10 := fun x hx => h x (by simp [hx])
    rw [List.map_cons, List.reverse_cons, parseDigitsAcc_append, ih hds acc]
    simp only [Option.some_bind, parseDigitsAcc, hd.1, if_true, hd.2.1]
    rw [Nat.ofDigits_cons]
    congr 1
    simp only [List.length_cons, pow_succ]
    ring

theorem natToStr_data (n : Nat) :
    ∀ c ∈ (natToStr n).data,
      isDigitChar c = true ∧ pySpace c = false ∧ c ≠ '-' ∧ c ≠ '+' := by
  intro c hc
  by_cases h : n = 0
  · subst h
    simp only [natToStr, if_true] at hc
    have : c = '0' := by simpa using hc
    subst this
    decide
  · simp only [natToStr, h, if_false, List.mem_reverse, List.mem_map] at hc
    obtain ⟨d, hd, rfl⟩ := hc
    have hlt := Nat.digits_lt_base (by norm_num) hd
    have := digitChar_digit d hlt
    exact ⟨this.1, this.2.2.1, this.2.2.2.1, this.2.2.2.2⟩

theorem natToStr_ne_nil (n : Nat) : (natToStr n).data ≠ [] := by
  by_cases h : n = 0
  · subst h; decide
  · simp [natToStr, h, Nat.digits_ne_nil_iff_ne_zero.mpr h]

theorem parseNatDigits_ne_nil (cs : List Char) (h : cs ≠ []) :
    parseNatDigits cs = parseDigitsAcc 0 cs := by
  cases cs with
  | nil => exact absurd rfl h
  | cons a as => rfl

theorem parseNatDigits_natToStr (n : Nat) : parseNatDigits (natToStr n).data = some n := by
  by_cases h : n = 0
  · subst h; decide
  · have hdl : ∀ d ∈ Nat.digits 10 n, d < 10 :=
      fun d hd => Nat.digits_lt_base (by norm_num) hd
    have hdata : (natToStr n).data = ((Nat.digits 10 n).map digitChar).reverse := by
      simp [natToStr, h]
    rw [parseNatDigits_ne_nil _ (natToStr_ne_nil n), hdata,
        parseDigitsAcc_render _ hdl 0, Nat.ofDigits_digits]
    simp

theorem pyStrip_of_clean (cs : List Char) (h : ∀ c ∈ cs, pySpace c = false) :
    pyStrip cs = cs := by
  have h1 : ∀ l : List Char, (∀ c ∈ l, pySpace c = false) → l.dropWhile pySpace = l := by
    intro l hl
    cases l with
    | nil => rfl
    | cons a as => simp [List.dropWhile, hl a (by simp)]
  rw [pyStrip, h1 cs h, h1 _ (fun c hc => h c (List.mem_reverse.mp hc)),
      List.reverse_reverse]

theorem parseInt_strip_cons (s : String) (c : Char) (rest : List Char)
    (h : pyStrip s.data = c :: rest) :
    parseInt s =
      (if c = '-' then (parseNatDigits rest).map (fun n => -(n : Int))
       else if c = '+' then (parseNatDigits rest).map (fun n => (n : Int))
       else (parseNatDigits (c :: rest)).map (fun n => (n : Int))) := by
  rw [parseInt]
  split
  · rename_i heq
    rw [h] at heq
    exact List.noConfusion heq
  · rename_i c2 rest2 heq
    rw [h] at heq
    injection heq with h1 h2
    subst h1
    subst h2
    rfl

theorem parseInt_intToStr (n : Int) : parseInt (intToStr n) = some n := by
  by_cases h : n < 0
  · have hdata : (intToStr n).data = '-' :: (natToStr n.natAbs).data := by
      simp [intToStr, h]
    have hclean : ∀ c ∈ '-' :: (natToStr n.natAbs).data, pySpace c = false := by
      intro c hc
      rcases List.mem_cons.mp hc with rfl | hc
      · decide
      · exact (natToStr_data n.natAbs c hc).2.1
    have hstrip : pyStrip (intToStr n).data = '-' :: (natToStr n.natAbs).data := by
      rw [hdata]
      exact pyStrip_of_clean _ hclean
    rw [parseInt_strip_cons _ _ _ hstrip, if_pos rfl, parseNatDigits_natToStr]
    have : ((n.natAbs : Int)) = -n := by omega
    simp [this]
  · have hdata : (intToStr n).data = (natToStr n.toNat).data := by
      simp [intToStr, h]
    have hclean : ∀ c ∈ (natToStr n.toNat).data, pySpace c = false :=
      fun c hc => (natToStr_data n.toNat c hc).2.1
    obtain ⟨c, rest, hcs⟩ : ∃ c rest, (natToStr n.toNat).data = c :: rest := by
      cases hx : (natToStr n.toNat).data with
      | nil => exact absurd hx (natToStr_ne_nil n.toNat)
      | cons c rest => exact ⟨c, rest, rfl⟩
    have hc := natToStr_data n.toNat c (by rw [hcs]; simp)
    have hstrip : pyStrip (intToStr n).data = c :: rest := by
      rw [hdata, pyStrip_of_clean _ hclean, hcs]
    rw [parseInt_strip_cons _ _ _ hstrip, if_neg hc.2.2.1, if_neg hc.2.2.2,
        ← hcs, parseNatDigits_natToStr]
    have : ((n.toNat : Int)) = n := Int.toNat_of_nonneg (not_lt.mp h)
    simp [this]

theorem parseInt_some_nonblank (s : String) (k : Int) (h : parseInt s = some k) :
    pyStrip s.data ≠ [] := by
  intro hb
  rw [parseInt, hb] at h
  exact Option.noConfusion h

/-! ## Price normalisation facts -/

theorem stripDollar_normalize (s : String) :
    stripDollar (normalizePrice s) = stripDollar s := by
  rw [normalizePrice]
  split
  · rfl
  · rw [stripDollar, stripDollar, String.data_append]
    simp

theorem startsWithDollar_normalize (s : String) :
    startsWithDollar (normalizePrice s) = true := by
  rw [normalizePrice]
  split
  · assumption
  · rw [startsWithDollar, String.data_append]
    rfl

/-! ## The sell loop -/

theorem sellLoop_not_found (item_id : String) (s : Int) (today : String)
    (l : List Item) (h : ∀ x ∈ l, x.id ≠ item_id) :
    sellLoop item_id s today l = .notFound := by
  induction l with
  | nil => rfl
  | cons a rest ih =>
    simp only [sellLoop, if_neg (h a (by simp)),
      ih (fun x hx => h x (by simp [hx]))]

theorem sellLoop_first (item_id : String) (s : Int) (today : String)
    (pre post : List Item) (r : Item)
    (hpre : ∀ x ∈ pre, x.id ≠ item_id) (hr : r.id = item_id) :
    sellLoop item_id s today (pre ++ r :: post) =
      (match sellCheck item_id s today r with
       | .error e => .fail e
       | .ok pair => .found (pre ++ pair.1 :: post, pair.2)) := by
  induction pre with
  | nil =>
    simp only [List.nil_append, sellLoop, if_pos hr]
  | cons a pre ih =>
    have ih2 := ih (fun x hx => hpre x (by simp [hx]))
    simp only [List.cons_append, sellLoop, if_neg (hpre a (by simp)), List.append_eq]
    rw [ih2]
    cases sellCheck item_id s today r with
    | error e => rfl
    | ok pair => rfl

theorem sellLoop_found_shape (item_id : String) (s : Int) (today : String)
    (l l2 : List Item) (en : SaleEntry)
    (h : sellLoop item_id s today l = .found (l2, en)) :
    ∃ pre r post pair, l = pre ++ r :: post ∧ (∀ x ∈ pre, x.id ≠ item_id) ∧
      r.id = item_id ∧ sellCheck item_id s today r = .ok pair ∧
      l2 = pre ++ pair.1 :: post ∧ en = pair.2 := by
  induction l generalizing l2 en with
  | nil => simp [sellLoop] at h
  | cons a rest ih =>
    simp only [sellLoop] at h
    by_cases ha : a.id = item_id
    · rw [if_pos ha] at h
      cases hchk : sellCheck item_id s today a with
      | error e2 => rw [hchk] at h; simp at h
      | ok pair =>
        rw [hchk] at h
        injection h with hp
        injection hp with hp1 hp2
        subst hp1
        subst hp2
        exact ⟨[], a, rest, pair, rfl, by simp, ha, hchk, rfl, rfl⟩
    · rw [if_neg ha] at h
      cases hrec : sellLoop item_id s today rest with
      | notFound => rw [hrec] at h; simp at h
      | fail e2 => rw [hrec] at h; simp at h
      | found pair2 =>
        rw [hrec] at h
        injection h with hp
        injection hp with hp1 hp2
        subst hp1
        subst hp2
        obtain ⟨pre, r, post, pair, hl, hpre, hr, hchk, hl2, hen⟩ :=
          ih pair2.1 pair2.2 (by rw [hrec])
        refine ⟨a :: pre, r, post, pair, by rw [hl]; rfl, ?_, hr, hchk, by rw [hl2]; rfl, hen⟩
        intro x hx
        rcases List.mem_cons.mp hx with rfl | hx
        · exact ha
        · exact hpre x hx

theorem sellLoop_fail_mem (item_id : String) (s : Int) (today : String)
    (l : List Item) (e : SellErr) (h : sellLoop item_id s today l = .fail e) :
    ∃ x ∈ l, x.id = item_id ∧ sellCheck item_id s today x = .error e := by
  induction l with
  | nil => simp [sellLoop] at h
  | cons a rest ih =>
    simp only [sellLoop] at h
    by_cases ha : a.id = item_id
    · rw [if_pos ha] at h
      cases hchk : sellCheck item_id s today a with
      | error e2 =>
        rw [hchk] at h
        injection h with he
        subst he
        exact ⟨a, by simp, ha, hchk⟩
      | ok pair => rw [hchk] at h; simp at h
    · rw [if_neg ha] at h
      cases hrec : sellLoop item_id s today rest with
      | notFound => rw [hrec] at h; simp at h
      | fail e2 =>
        rw [hrec] at h
        injection h with he
        subst he
        obtain ⟨x, hx, hxid, hchk⟩ := ih hrec
        exact ⟨x, by simp [hx], hxid, hchk⟩
      | found pair2 => rw [hrec] at h; simp at h

theorem sellCheck_ok_shape (item_id : String) (s : Int) (today : String)
    (item : Item) (pair : Item × SaleEntry)
    (h : sellCheck item_id s today item = .ok pair) :
    ∃ q p n t, parseInt item.quantity = some q ∧ ¬s > q ∧
      parseFloat (stripDollar item.price) = some p ∧
      parseInt item.sold = some n ∧
      parseFloat item.total_investment = some t ∧
      pair.1 = { item with
                 quantity := intToStr (q - s),
                 sold := intToStr (n + s),
                 total_investment := printFloat2 (round2 (t - (s : ℚ) * p)) } ∧
      pair.2 = add_sale_record today item_id item.name s ((s : ℚ) * p) := by
  rw [sellCheck] at h
  split at h
  · simp at h
  · rename_i q hq
    split at h
    · simp at h
    · rename_i hgt
      split at h
      · simp at h
      · rename_i p hp
        split at h
        · simp at h
        · rename_i n hn
          split at h
          · simp at h
          · rename_i t ht
            injection h with hpair
            subst hpair
            exact ⟨q, p, n, t, hq, hgt, hp, hn, ht, rfl, rfl⟩

/-! ## The update loop -/

theorem updateCheck_ok_shape (inp : UpdateInput) (i i2 : Item)
    (h : updateCheck inp i = .ok i2) :
    ∃ q p, parseFloat (stripDollar (normalizePrice (inp.price.getD i.price))) = some p ∧
      parseInt (inp.quantity.getD i.quantity) = some q ∧
      i2 = { i with
             name := inp.name.getD i.name,
             quantity := inp.quantity.getD i.quantity,
             price := normalizePrice (inp.price.getD i.price),
             total_investment := printFloat2 (round2 ((q : ℚ) * p)) } := by
  rw [updateCheck] at h
  split at h
  · simp at h
  · rename_i p hp
    split at h
    · simp at h
    · rename_i q hq
      injection h with hi
      exact ⟨q, p, hp, hq, hi.symm⟩

theorem updateLoop_not_found (item_id : String) (inp : UpdateInput)
    (l : List Item) (h : ∀ x ∈ l, x.id ≠ item_id) :
    updateLoop item_id inp l = .notFound := by
  induction l with
  | nil => rfl
  | cons a rest ih =>
    simp only [updateLoop, if_neg (h a (by simp)),
      ih (fun x hx => h x (by simp [hx]))]

theorem updateLoop_first (item_id : String) (inp : UpdateInput)
    (pre post : List Item) (r : Item)
    (hpre : ∀ x ∈ pre, x.id ≠ item_id) (hr : r.id = item_id) :
    updateLoop item_id inp (pre ++ r :: post) =
      (match updateCheck inp r with
       | .error e => .fail e
       | .ok r2 => .found (pre ++ r2 :: post)) := by
  induction pre with
  | nil =>
    simp only [List.nil_append, updateLoop, if_pos hr]
  | cons a pre ih =>
    have ih2 := ih (fun x hx => hpre x (by simp [hx]))
    simp only [List.cons_append, updateLoop, if_neg (hpre a (by simp)), List.append_eq]
    rw [ih2]
    cases updateCheck inp r with
    | error e => rfl
    | ok r2 => rfl

theorem updateLoop_sold (item_id : String) (inp : UpdateInput)
    (l l2 : List Item) (h : updateLoop item_id inp l = .found l2) :
    l2.map Item.sold = l.map Item.sold := by
  induction l generalizing l2 with
  | nil => simp [updateLoop] at h
  | cons a rest ih =>
    simp only [updateLoop] at h
    by_cases ha : a.id = item_id
    · rw [if_pos ha] at h
      cases hchk : updateCheck inp a with
      | error e => rw [hchk] at h; simp at h
      | ok i2 =>
        rw [hchk] at h
        injection h with h1
        subst h1
        obtain ⟨q, p, hp, hq, hi2⟩ := updateCheck_ok_shape inp a i2 hchk
        simp [hi2]
    · rw [if_neg ha] at h
      cases hrec : updateLoop item_id inp rest with
      | notFound => rw [hrec] at h; simp at h
      | fail e => rw [hrec] at h; simp at h
      | found rest2 =>
        rw [hrec] at h
        injection h with h1
        subst h1
        simp [ih rest2 hrec]

/-! ## Shapes of successful operations -/

theorem add_item_ok_shape (inp : AddInput) (items items2 : List Item) (nid : String)
    (h : add_item inp items = .ok (items2, nid)) :
    ∃ q p, parseInt inp.quantity = some q ∧ ¬q < 10 ∧
      parseFloat (stripDollar (normalizePrice inp.price)) = some p ∧
      nextId items = some nid ∧
      items2 = items ++ [(⟨nid, inp.name, inp.quantity, normalizePrice inp.price,
        printFloat2 (round2 ((q : ℚ) * p)), "0"⟩ : Item)] := by
  rw [add_item] at h
  split at h
  · simp at h
  · rename_i q hq
    split at h
    · simp at h
    · rename_i hq10
      split at h
      · dsimp only at h
        split at h <;> simp at h
      · rename_i nid2 hnid
        dsimp only at h
        split at h
        · simp at h
        · rename_i p hp
          injection h with hpair
          injection hpair with h1 h2
          subst h2
          exact ⟨q, p, hq, hq10, hp, hnid, h1.symm⟩

theorem sell_item_ok_shape (today item_id : String) (data : Option String)
    (w w2 : World) (s : Int)
    (h : sell_item today item_id data w = (w2, .ok s)) :
    ∃ raw, data = some raw ∧ pyStrip raw.data ≠ [] ∧ parseInt raw = some s ∧ 0 < s ∧
      ∃ pair, sellLoop item_id s today w.inventory = .found pair ∧
        w2 = { inventory := pair.1, ledger := w.ledger ++ [pair.2] } := by
  cases data with
  | none => simp [sell_item] at h
  | some raw =>
    simp only [sell_item] at h
    split at h
    · simp at h
    · rename_i hb
      split at h
      · simp at h
      · rename_i s2 hp
        split at h
        · simp at h
        · rename_i hs
          split at h
          · simp at h
          · simp at h
          · rename_i pair hloop
            injection h with h1 h2
            injection h2 with h3
            subst h3
            exact ⟨raw, rfl, hb, hp, lt_of_not_le hs, pair, hloop, h1.symm⟩

theorem containsSub_nil (hay : List Char) : containsSub [] hay = true := by
  cases hay with
  | nil => rfl
  | cons c rest => simp [containsSub, listLeads]

/-! ## Claim theorems -/

/-- **C10**: Search with the empty string as the query returns every
record in the store, in store order, and search (a pure read) only ever
selects a sublist of the store, never altering it. -/
theorem search_empty_query (items : List Item) :
    search_items "" items = items ∧
    ∀ q : String, (search_items q items).Sublist items := by
  constructor
  · rw [search_items]
    apply List.filter_eq_self.mpr
    intro a _
    simp [show (strLower "").data = [] from rfl, containsSub_nil]
  · intro q
    exact List.filter_sublist _

/-- **C2**: every failing sale attempt leaves the durable state (record
store and sale ledger) exactly as it was, and a ledger entry is appended
iff the sale succeeded. -/
theorem sell_failure_atomic (today item_id : String) (data : Option String) (w : World) :
    (∀ e : SellErr, (sell_item today item_id data w).2 = .error e →
        (sell_item today item_id data w).1 = w) ∧
    ((∃ en, (sell_item today item_id data w).1.ledger = w.ledger ++ [en]) ↔
      (∃ s : Int, (sell_item today item_id data w).2 = .ok s)) := by
  have hlen : ∀ en : SaleEntry, ¬w.ledger = w.ledger ++ [en] := by
    intro en hcontra
    have h2 := congrArg List.length hcontra
    simp at h2
  have herr : ∀ e2 : SellErr,
      (∀ e : SellErr, ((w, Except.error e2) : World × Except SellErr Int).2 = .error e →
        ((w, Except.error e2) : World × Except SellErr Int).1 = w) ∧
      ((∃ en, ((w, Except.error e2) : World × Except SellErr Int).1.ledger =
          w.ledger ++ [en]) ↔
        (∃ s : Int, ((w, Except.error e2) : World × Except SellErr Int).2 = .ok s)) := by
    intro e2
    refine ⟨fun e _ => rfl, ?_⟩
    constructor
    · rintro ⟨en, hen⟩
      exact absurd hen (hlen en)
    · rintro ⟨s, hs⟩
      exact Except.noConfusion hs
  cases data with
  | none => exact herr .missingQuantity
  | some raw =>
    simp only [sell_item]
    split
    · exact herr _
    · split
      · exact herr _
      · split
        · exact herr _
        · split
          · exact herr _
          · exact herr _
          · rename_i pair hloop
            refine ⟨fun e he => absurd he (by simp), ?_⟩
            constructor
            · intro _
              exact ⟨_, rfl⟩
            · intro _
              exact ⟨pair.2, rfl⟩

/-- **C3**: the sale validations run in the stated order and
short-circuit: absent/blank quantity, then unparseable quantity, then
non-positive quantity, then unknown record; the late failures (corrupt
stored fields, insufficient stock) occur only once all earlier checks
passed. -/
theorem sell_validation_order (today item_id : String) (w : World) :
    (∀ data : Option String,
        (data = none ∨ ∃ raw, data = some raw ∧ pyStrip raw.data = []) →
        (sell_item today item_id data w).2 = .error .missingQuantity) ∧
    (∀ raw : String, pyStrip raw.data ≠ [] → parseInt raw = none →
        (sell_item today item_id (some raw) w).2 = .error .invalidQuantityFormat) ∧
    (∀ raw : String, ∀ s : Int, parseInt raw = some s → s ≤ 0 →
        (sell_item today item_id (some raw) w).2 = .error .nonPositiveQuantity) ∧
    (∀ raw : String, ∀ s : Int, parseInt raw = some s → 0 < s →
        (∀ x ∈ w.inventory, x.id ≠ item_id) →
        (sell_item today item_id (some raw) w).2 = .error .recordNotFound) ∧
    (∀ data : Option String, ∀ e : SellErr,
        (sell_item today item_id data w).2 = .error e →
        (e = .corruptQuantity ∨ e = .corruptPrice ∨ (∃ a, e = .insufficientStock a)) →
        ∃ raw s, data = some raw ∧ parseInt raw = some s ∧ 0 < s ∧
          ∃ x ∈ w.inventory, x.id = item_id) := by
  refine ⟨?_, ?_, ?_, ?_, ?_⟩
  · rintro data (rfl | ⟨raw, rfl, hb⟩)
    · rfl
    · simp [sell_item, hb]
  · intro raw hb hp
    simp [sell_item, hb, hp]
  · intro raw s hp hs
    have hb := parseInt_some_nonblank raw s hp
    simp [sell_item, hb, hp, hs]
  · intro raw s hp hspos hnone
    have hb := parseInt_some_nonblank raw s hp
    have hloop := sellLoop_not_found item_id s today w.inventory hnone
    simp [sell_item, hb, hp, not_le.mpr hspos, hloop]
  · intro data e h he
    have hctr : e ≠ .missingQuantity ∧ e ≠ .invalidQuantityFormat ∧
        e ≠ .nonPositiveQuantity ∧ e ≠ .recordNotFound := by
      rcases he with rfl | rfl | ⟨a, rfl⟩ <;> exact ⟨by simp, by simp, by simp, by simp⟩
    cases data with
    | none =>
      simp [sell_item] at h
      exact absurd h.symm hctr.1
    | some raw =>
      simp only [sell_item] at h
      split at h
      · simp at h
        exact absurd h.symm hctr.1
      · rename_i hb
        split at h
        · simp at h
          exact absurd h.symm hctr.2.1
        · rename_i s hp
          split at h
          · simp at h
            exact absurd h.symm hctr.2.2.1
          · rename_i hs
            split at h
            · simp at h
              exact absurd h.symm hctr.2.2.2
            · rename_i e2 hloop
              simp at h
              obtain ⟨x, hx, hxid, _⟩ :=
                sellLoop_fail_mem item_id s today w.inventory e2 hloop
              exact ⟨raw, s, rfl, hp, lt_of_not_le hs, x, hx, hxid⟩
            · rename_i pair hloop
              simp at h

/-- **C1**: a sale with a valid quantity `s` (integer, positive, within
stock) succeeds with confirmation `s`; the record's quantity drops by
exactly `s`, its sold counter rises by exactly `s`, its stored
investment becomes `round(old - s * unitPrice, 2)`, and exactly one
ledger row is appended, with amount `round(s * unitPrice, 2)`. -/
theorem sell_valid_spec (today item_id raw : String) (w : World)
    (pre post : List Item) (r : Item) (s q n : Int) (p t : ℚ)
    (hinv : w.inventory = pre ++ r :: post)
    (hpre : ∀ x ∈ pre, x.id ≠ item_id)
    (hid : r.id = item_id)
    (hs : parseInt raw = some s) (hpos : 0 < s)
    (hq : parseInt r.quantity = some q) (hle : s ≤ q)
    (hp : parseFloat (stripDollar r.price) = some p)
    (hn : parseInt r.sold = some n)
    (ht : parseFloat r.total_investment = some t) :
    sell_item today item_id (some raw) w =
      ({ inventory := pre ++ { r with
            quantity := intToStr (q - s),
            sold := intToStr (n + s),
            total_investment := printFloat2 (round2 (t - (s : ℚ) * p)) } :: post,
         ledger := w.ledger ++ [add_sale_record today item_id r.name s ((s : ℚ) * p)] },
       .ok s) ∧
    parseInt (intToStr (q - s)) = some (q - s) ∧
    parseInt (intToStr (n + s)) = some (n + s) ∧
    (add_sale_record today item_id r.name s ((s : ℚ) * p)).amount =
      printFloat2 (round2 ((s : ℚ) * p)) ∧
    (add_sale_record today item_id r.name s ((s : ℚ) * p)).sold_quantity = intToStr s := by
  refine ⟨?_, parseInt_intToStr _, parseInt_intToStr _, rfl, rfl⟩
  have hb := parseInt_some_nonblank raw s hs
  have hchk : sellCheck item_id s today r = .ok ({ r with
      quantity := intToStr (q - s),
      sold := intToStr (n + s),
      total_investment := printFloat2 (round2 (t - (s : ℚ) * p)) },
      add_sale_record today item_id r.name s ((s : ℚ) * p)) := by
    simp only [sellCheck, hq, hp, hn, ht, if_neg (not_lt.mpr hle)]
  have hloop := sellLoop_first item_id s today pre post r hpre hid
  rw [hchk] at hloop
  simp only [sell_item, if_neg hb, hs, if_neg (not_le.mpr hpos), hinv, hloop]

/-- Concrete instance of the valid-sale specification: selling 3 units
of record 001 out of the sample store. -/
theorem sell_valid_spec_witness :
    sell_item "2026-10-12" "001" (some "3") worldAB =
      ((⟨[⟨"001", "Vinyl", "17", "$5.5", "93.5", "3"⟩, itemB],
        [⟨"2026-10-12", "001", "Vinyl", "3", "16.5"⟩]⟩ : World), .ok 3) := by
  have h := (sell_valid_spec "2026-10-12" "001" "3" worldAB [] [itemB] itemA 3 20 0 (11/2) 110
      rfl (by simp) rfl (by decide) (by decide) (by decide) (by decide)
      (by with_unfolding_all decide) (by decide) (by with_unfolding_all decide)).1
  rw [h]
  with_unfolding_all decide

/-- Concrete instance of failed-sale atomicity: an insufficient-stock
attempt leaves the durable state untouched. -/
theorem sell_failure_atomic_witness :
    (sell_item "2026-10-12" "001" (some "999") worldAB).1 = worldAB :=
  (sell_failure_atomic "2026-10-12" "001" (some "999") worldAB).1
    (.insufficientStock 20) (by decide)

/-- Concrete instance of the validation order: a non-integer quantity is
reported as a format error. -/
theorem sell_validation_order_witness :
    (sell_item "2026-10-12" "001" (some "abc") worldAB).2 = .error .invalidQuantityFormat :=
  (sell_validation_order "2026-10-12" "001" worldAB).2.1 "abc" (by decide) (by decide)

/-- **C4**: Add rejects integer quantities below 10 with the
minimum-quantity error and writes nothing; with quantity at least 10 it
succeeds, stores the price with the `$` marker, computes the investment
as `round(quantity * unitPrice, 2)`, sets `sold` to 0, and returns the
assigned id. -/
theorem add_item_spec (inp : AddInput) (w : World) (q : Int)
    (hq : parseInt inp.quantity = some q) :
    (q < 10 → add_item inp w.inventory = .error .quantityBelowMinimum ∧
        applyOp w (.addOp inp) = w) ∧
    (10 ≤ q → ∀ p : ℚ, ∀ nid : String,
        parseFloat (stripDollar inp.price) = some p →
        nextId w.inventory = some nid →
        add_item inp w.inventory = .ok (w.inventory ++
            [(⟨nid, inp.name, inp.quantity, normalizePrice inp.price,
              printFloat2 (round2 ((q : ℚ) * p)), "0"⟩ : Item)], nid) ∧
          startsWithDollar (normalizePrice inp.price) = true ∧
          parseFloat (stripDollar (normalizePrice inp.price)) = some p) := by
  constructor
  · intro h10
    have hadd : add_item inp w.inventory = .error .quantityBelowMinimum := by
      simp only [add_item, hq, if_pos h10]
    exact ⟨hadd, by simp only [applyOp, hadd]⟩
  · intro h10 p nid hp hnid
    have hp2 : parseFloat (stripDollar (normalizePrice inp.price)) = some p := by
      rw [stripDollar_normalize]
      exact hp
    refine ⟨?_, startsWithDollar_normalize inp.price, hp2⟩
    simp only [add_item, hq, if_neg (not_lt.mpr h10), hp2, hnid]

/-- Concrete instances of the Add minimum-quantity rule: quantity 9 is
rejected, quantity 10 accepted with all derived fields. -/
theorem add_item_spec_witness :
    add_item ⟨"Tape", "9", "3.25"⟩ worldAB.inventory = .error .quantityBelowMinimum ∧
    add_item ⟨"Tape", "10", "3.25"⟩ worldAB.inventory = .ok (worldAB.inventory ++
      [(⟨"003", "Tape", "10", "$3.25", "32.5", "0"⟩ : Item)], "003") := by
  constructor
  · exact ((add_item_spec ⟨"Tape", "9", "3.25"⟩ worldAB 9 (by decide)).1 (by decide)).1
  · have h := ((add_item_spec ⟨"Tape", "10", "3.25"⟩ worldAB 10 (by decide)).2 (by decide)
      (13/4) "003" (by with_unfolding_all decide) (by with_unfolding_all decide)).1
    rw [h]
    with_unfolding_all decide

theorem parseDigitsAcc_zeros (j : Nat) :
    parseDigitsAcc 0 (List.replicate j '0') = some 0 := by
  induction j with
  | zero => rfl
  | succ j ih =>
    simpa [List.replicate_succ, parseDigitsAcc,
      show isDigitChar '0' = true from rfl,
      show Char.toNat '0' - 48 = 0 from rfl] using ih

theorem parseInt_padZeros (w m : Nat) : parseInt (padZeros w (natToStr m)) = some (m : Int) := by
  have hdata : (padZeros w (natToStr m)).data =
      List.replicate (w - (natToStr m).data.length) '0' ++ (natToStr m).data := by
    rw [padZeros, String.data_append]
  have hclean : ∀ c ∈ (padZeros w (natToStr m)).data, pySpace c = false := by
    rw [hdata]
    intro c hc
    rcases List.mem_append.mp hc with hc | hc
    · rw [List.eq_of_mem_replicate hc]
      decide
    · exact (natToStr_data m c hc).2.1
  obtain ⟨c, rest, hcs⟩ : ∃ c rest,
      (padZeros w (natToStr m)).data = c :: rest := by
    cases hx : (padZeros w (natToStr m)).data with
    | nil =>
      rw [hdata] at hx
      rcases List.append_eq_nil.mp hx with ⟨-, h2⟩
      exact absurd h2 (natToStr_ne_nil m)
    | cons c rest => exact ⟨c, rest, rfl⟩
  have hdig : isDigitChar c = true := by
    have hc : c ∈ (padZeros w (natToStr m)).data := by rw [hcs]; simp
    rw [hdata] at hc
    rcases List.mem_append.mp hc with hc | hc
    · rw [List.eq_of_mem_replicate hc]
      decide
    · exact (natToStr_data m c hc).1
  have hcm : c ≠ '-' ∧ c ≠ '+' := by
    constructor <;> rintro rfl <;> simp [isDigitChar] at hdig
  have hstrip : pyStrip (padZeros w (natToStr m)).data = c :: rest :=
    (pyStrip_of_clean _ hclean).trans hcs
  rw [parseInt_strip_cons _ _ _ hstrip, if_neg hcm.1, if_neg hcm.2, ← hcs, hdata,
      parseNatDigits_ne_nil _ (by rw [← hdata, hcs]; simp), parseDigitsAcc_append,
      parseDigitsAcc_zeros]
  simp only [Option.some_bind]
  rw [← parseNatDigits_ne_nil _ (natToStr_ne_nil m), parseNatDigits_natToStr]
  rfl

/-- **C5**: a successful Add assigns max(parsed ids, default 0) + 1 as
the new id (001 on an empty store), zero-padded to width 3; the padding
is value-preserving and absent above 999. -/
theorem next_id_spec (inp : AddInput) (items items2 : List Item)
    (nid : String) (ids : List Int)
    (hids : items.mapM (fun i => parseInt i.id) = some ids)
    (hok : add_item inp items = .ok (items2, nid)) :
    nid = (if items.isEmpty then "001" else formatId (pymax ids 0 + 1)) ∧
    (∀ n : Int, 0 ≤ n → parseInt (formatId n) = some n) ∧
    (∀ n : Int, 1 ≤ n → n ≤ 999 → (formatId n).data.length = 3) ∧
    (∀ n : Int, 999 < n → formatId n = intToStr n) := by
  refine ⟨?_, ?_, ?_, ?_⟩
  · obtain ⟨q, p, -, -, -, hnid, -⟩ := add_item_ok_shape inp items items2 nid hok
    rw [nextId] at hnid
    by_cases hempty : items.isEmpty
    · rw [if_pos hempty] at hnid
      rw [if_pos hempty]
      exact (Option.some_injective _ hnid).symm
    · rw [if_neg hempty] at hnid
      rw [if_neg hempty]
      rw [hids] at hnid
      exact (Option.some_injective _ hnid).symm
  · intro n hn
    rw [formatId, if_neg (not_lt.mpr hn)]
    have : ((n.toNat : Nat) : Int) = n := Int.toNat_of_nonneg hn
    rw [parseInt_padZeros]
    rw [this]
  · intro n h1 h999
    rw [formatId, if_neg (by omega)]
    have hpos : n.toNat ≠ 0 := by omega
    have hlen : (natToStr n.toNat).data.length ≤ 3 := by
      have hlog : Nat.log 10 n.toNat < 3 :=
        Nat.log_lt_of_lt_pow hpos (by omega)
      rw [natToStr, if_neg hpos]
      simp [Nat.digits_len 10 n.toNat (by norm_num) hpos]
      omega
    rw [padZeros, String.data_append]
    simp only [List.length_append, List.length_replicate]
    omega
  · intro n h999
    have hn : ¬n < 0 := by omega
    rw [formatId, if_neg hn, intToStr, if_neg hn]
    have hpos : n.toNat ≠ 0 := by omega
    have hlen : 3 ≤ (natToStr n.toNat).data.length := by
      have hlog : 3 ≤ Nat.log 10 n.toNat :=
        (Nat.pow_le_iff_le_log (by norm_num) hpos).mp (by omega)
      rw [natToStr, if_neg hpos]
      simp [Nat.digits_len 10 n.toNat (by norm_num) hpos]
      omega
    rw [padZeros]
    have h0 : 3 - (natToStr n.toNat).data.length = 0 := by omega
    rw [h0]
    cases hx : natToStr n.toNat with
    | mk cs => rfl

/-- Concrete instance of id allocation: on ids 001, 002, 005 the next
assigned id is 006. -/
theorem next_id_spec_witness :
    ("006" : String) =
      (if ([itemA, itemB, itemC] : List Item).isEmpty then "001"
       else formatId (pymax [1, 2, 5] 0 + 1)) :=
  (next_id_spec ⟨"Disc", "10", "2.0"⟩ [itemA, itemB, itemC]
    [itemA, itemB, itemC, ⟨"006", "Disc", "10", "$2.0", "20.0", "0"⟩] "006" [1, 2, 5]
    (by decide) (by with_unfolding_all decide)).1

/-- **C6**: Update on an absent id fails with RecordNotFound leaving
the store unchanged; on the first matching record each supplied field
replaces the old value, omitted fields are retained, the price is
renormalized, and the investment is recomputed from the resulting
quantity and price; id and sold are untouched. -/
theorem update_item_spec (item_id : String) (inp : UpdateInput) (w : World) :
    ((∀ x ∈ w.inventory, x.id ≠ item_id) →
        update_item item_id inp w.inventory = .error .recordNotFound ∧
        applyOp w (.updateOp item_id inp) = w) ∧
    (∀ pre post : List Item, ∀ r : Item, ∀ q : Int, ∀ p : ℚ,
        w.inventory = pre ++ r :: post →
        (∀ x ∈ pre, x.id ≠ item_id) → r.id = item_id →
        parseFloat (stripDollar (normalizePrice (inp.price.getD r.price))) = some p →
        parseInt (inp.quantity.getD r.quantity) = some q →
        update_item item_id inp w.inventory = .ok (pre ++ { r with
            name := inp.name.getD r.name,
            quantity := inp.quantity.getD r.quantity,
            price := normalizePrice (inp.price.getD r.price),
            total_investment := printFloat2 (round2 ((q : ℚ) * p)) } :: post)) := by
  constructor
  · intro hnone
    have hupd : update_item item_id inp w.inventory = .error .recordNotFound := by
      rw [update_item, updateLoop_not_found item_id inp _ hnone]
    exact ⟨hupd, by simp only [applyOp, hupd]⟩
  · intro pre post r q p hinv hpre hid hp hq
    have hchk : updateCheck inp r = .ok { r with
        name := inp.name.getD r.name,
        quantity := inp.quantity.getD r.quantity,
        price := normalizePrice (inp.price.getD r.price),
        total_investment := printFloat2 (round2 ((q : ℚ) * p)) } := by
      simp only [updateCheck, hp, hq]
    have hloop := updateLoop_first item_id inp pre post r hpre hid
    rw [hchk] at hloop
    rw [hinv]
    simp only [update_item, hloop]

/-- Concrete instance of partial update: changing only the quantity of
record 002 recomputes the investment from the new quantity and the
unchanged price. -/
theorem update_item_spec_witness :
    update_item "002" ⟨none, some "40", none⟩ worldAB.inventory =
      .ok [itemA, ⟨"002", "CD", "40", "$2.0", "80.0", "3"⟩] := by
  have h := (update_item_spec "002" ⟨none, some "40", none⟩ worldAB).2
    [itemA] [] itemB 40 2 rfl (by decide) rfl (by with_unfolding_all decide) (by decide)
  rw [h]
  with_unfolding_all decide

/-- **C9**: with duplicate ids, Update and Sell rewrite only the first
matching record and keep every other record byte-for-byte (later
duplicates included), while Delete removes every matching record. -/
theorem duplicate_id_frame (item_id : String) (pre post : List Item) (r : Item)
    (hpre : ∀ x ∈ pre, x.id ≠ item_id) (hid : r.id = item_id) :
    (∀ inp : UpdateInput, ∀ items2 : List Item,
        update_item item_id inp (pre ++ r :: post) = .ok items2 →
        ∃ r2, items2 = pre ++ r2 :: post) ∧
    (∀ today : String, ∀ data : Option String, ∀ w w2 : World, ∀ s : Int,
        w.inventory = pre ++ r :: post →
        sell_item today item_id data w = (w2, .ok s) →
        ∃ r2, w2.inventory = pre ++ r2 :: post) ∧
    (delete_item item_id (pre ++ r :: post) =
        .ok (pre ++ post.filter (fun i => i.id != item_id))) := by
  refine ⟨?_, ?_, ?_⟩
  · intro inp items2 h
    rw [update_item, updateLoop_first item_id inp pre post r hpre hid] at h
    cases hchk : updateCheck inp r with
    | error e => rw [hchk] at h; simp at h
    | ok r2 =>
      rw [hchk] at h
      simp at h
      exact ⟨r2, h.symm⟩
  · intro today data w w2 s hinv hsell
    obtain ⟨raw, -, -, hp, hpos, pair, hloop, hw2⟩ :=
      sell_item_ok_shape today item_id data w w2 s hsell
    rw [hinv, sellLoop_first item_id s today pre post r hpre hid] at hloop
    cases hchk : sellCheck item_id s today r with
    | error e => rw [hchk] at hloop; simp at hloop
    | ok pair2 =>
      rw [hchk] at hloop
      injection hloop with hpz
      exact ⟨pair2.1, by simp [hw2, ← hpz]⟩
  · have hpref : pre.filter (fun i => i.id != item_id) = pre :=
      List.filter_eq_self.mpr (fun a ha => by simp [hpre a ha])
    have hr : (r.id != item_id) = false := by simp [hid]
    have hfilter : (pre ++ r :: post).filter (fun i => i.id != item_id) =
        pre ++ post.filter (fun i => i.id != item_id) := by
      rw [List.filter_append, hpref, List.filter_cons, hr]
      simp
    have hlen : ¬((pre ++ r :: post).filter (fun i => i.id != item_id)).length =
        (pre ++ r :: post).length := by
      rw [hfilter]
      simp only [List.length_append, List.length_cons]
      have := List.length_filter_le (fun i => i.id != item_id) post
      omega
    simp only [delete_item]
    rw [if_neg hlen, hfilter]

/-- Concrete instance of delete with a duplicate id: both records with
id 001 are removed. -/
theorem duplicate_id_frame_witness :
    delete_item "001" ([itemB] ++ itemA ::
        [(⟨"001", "Copy", "9", "$1.0", "9.0", "2"⟩ : Item)]) = .ok [itemB] := by
  have h := (duplicate_id_frame "001" [itemB]
    [(⟨"001", "Copy", "9", "$1.0", "9.0", "2"⟩ : Item)] itemA (by decide) rfl).2.2
  rw [h]
  decide

/-! ## The sold-counter invariant -/

theorem update_item_ok_loop (item_id : String) (inp : UpdateInput) (l l2 : List Item)
    (h : update_item item_id inp l = .ok l2) :
    updateLoop item_id inp l = .found l2 := by
  rw [update_item] at h
  cases hl : updateLoop item_id inp l with
  | notFound => rw [hl] at h; simp at h
  | fail e => rw [hl] at h; simp at h
  | found l3 =>
    rw [hl] at h
    simp at h
    rw [h]

theorem sell_item_cases (today item_id : String) (data : Option String) (w : World) :
    (∃ e, sell_item today item_id data w = (w, .error e)) ∨
    (∃ s pair, sell_item today item_id data w =
        ({ inventory := pair.1, ledger := w.ledger ++ [pair.2] }, .ok s) ∧
      sellLoop item_id s today w.inventory = .found pair ∧ 0 < s) := by
  cases data with
  | none => exact Or.inl ⟨.missingQuantity, rfl⟩
  | some raw =>
    simp only [sell_item]
    split
    · exact Or.inl ⟨.missingQuantity, rfl⟩
    · split
      · exact Or.inl ⟨.invalidQuantityFormat, rfl⟩
      · rename_i s hp
        split
        · exact Or.inl ⟨.nonPositiveQuantity, rfl⟩
        · rename_i hs
          split
          · exact Or.inl ⟨.recordNotFound, rfl⟩
          · rename_i e hloop
            exact Or.inl ⟨e, rfl⟩
          · rename_i pair hloop
            exact Or.inr ⟨s, pair, rfl, hloop, lt_of_not_le hs⟩

theorem soldOK_of_map_eq (l l2 : List Item) (h : l2.map Item.sold = l.map Item.sold)
    (hok : SoldOK l) : SoldOK l2 := by
  intro r hr
  have hmem : r.sold ∈ l2.map Item.sold := List.mem_map_of_mem _ hr
  rw [h] at hmem
  obtain ⟨r2, hr2, hsold⟩ := List.mem_map.mp hmem
  obtain ⟨n, hn, hpos⟩ := hok r2 hr2
  exact ⟨n, by rw [← hsold]; exact hn, hpos⟩

theorem applyOp_soldOK (w : World) (op : Op) (h : SoldOK w.inventory) :
    SoldOK (applyOp w op).inventory := by
  cases op with
  | addOp inp =>
    simp only [applyOp]
    cases hadd : add_item inp w.inventory with
    | error e => exact h
    | ok pair =>
      dsimp only
      obtain ⟨q, p, -, -, -, -, hshape⟩ :=
        add_item_ok_shape inp w.inventory pair.1 pair.2 (by rw [hadd])
      rw [hshape]
      intro r hr
      rcases List.mem_append.mp hr with hr | hr
      · exact h r hr
      · have hx : r = ⟨pair.2, inp.name, inp.quantity, normalizePrice inp.price,
            printFloat2 (round2 ((q : ℚ) * p)), "0"⟩ := by simpa using hr
        refine ⟨0, ?_, le_refl 0⟩
        rw [hx]
        exact (by decide : parseInt "0" = some 0)
  | updateOp item_id inp =>
    simp only [applyOp]
    cases hupd : update_item item_id inp w.inventory with
    | error e => exact h
    | ok items2 =>
      exact soldOK_of_map_eq _ _
        (updateLoop_sold item_id inp _ _ (update_item_ok_loop _ _ _ _ hupd)) h
  | deleteOp item_id =>
    simp only [applyOp]
    cases hdel : delete_item item_id w.inventory with
    | error e => exact h
    | ok items2 =>
      dsimp only
      have hfil : items2 = w.inventory.filter (fun i => i.id != item_id) := by
        rw [delete_item] at hdel
        split at hdel
        · simp at hdel
        · simp at hdel
          exact hdel.symm
      rw [hfil]
      intro r hr
      exact h r (List.mem_of_mem_filter hr)
  | sellOp today item_id data =>
    simp only [applyOp]
    rcases sell_item_cases today item_id data w with ⟨e, heq⟩ | ⟨s, pair, heq, hloop, hspos⟩
    · rw [heq]
      exact h
    · rw [heq]
      dsimp only
      obtain ⟨pre, r, post, pair2, hl, hpre2, hrid, hchk, hl2, hen⟩ :=
        sellLoop_found_shape item_id s today w.inventory pair.1 pair.2 (by rw [hloop])
      obtain ⟨q, p2, n, t, -, -, -, hn, -, hpair1, -⟩ :=
        sellCheck_ok_shape item_id s today r pair2 hchk
      rw [hl2]
      intro x hx
      rcases List.mem_append.mp hx with hx | hx
      · exact h x (by rw [hl]; exact List.mem_append.mpr (Or.inl hx))
      · rcases List.mem_cons.mp hx with rfl | hx
        · obtain ⟨n0, hn0, hn0pos⟩ := h r (by rw [hl]; simp)
          have hnn : n = n0 := by
            rw [hn] at hn0
            exact Option.some_injective _ hn0
          refine ⟨n + s, ?_, by omega⟩
          rw [hpair1]
          exact parseInt_intToStr (n + s)
        · exact h x (by
            rw [hl]
            exact List.mem_append.mpr (Or.inr (List.mem_cons.mpr (Or.inr hx))))

theorem foldl_soldOK (ops : List Op) (w : World) (h : SoldOK w.inventory) :
    SoldOK (ops.foldl applyOp w).inventory := by
  induction ops generalizing w with
  | nil => exact h
  | cons op ops ih => exact ih (applyOp w op) (applyOp_soldOK w op h)

/-- **C8**: the sold counter is a non-negative integer throughout any
operation sequence from the empty store; Add initialises it to "0",
Update never touches any sold field, and a successful Sell adds the
strictly positive sold quantity to the matched record's counter. -/
theorem sold_counter_spec :
    (∀ ops : List Op, SoldOK (runOps ops).inventory) ∧
    (∀ inp : AddInput, ∀ items items2 : List Item, ∀ nid : String,
        add_item inp items = .ok (items2, nid) →
        ∃ newRec : Item, items2 = items ++ [newRec] ∧ newRec.sold = "0") ∧
    (∀ item_id : String, ∀ inp : UpdateInput, ∀ items items2 : List Item,
        update_item item_id inp items = .ok items2 →
        items2.map Item.sold = items.map Item.sold) ∧
    (∀ today item_id : String, ∀ data : Option String, ∀ w w2 : World, ∀ s : Int,
        sell_item today item_id data w = (w2, .ok s) →
        0 < s ∧ ∃ pre post : List Item, ∃ r r2 : Item, ∃ n : Int,
          w.inventory = pre ++ r :: post ∧ w2.inventory = pre ++ r2 :: post ∧
          parseInt r.sold = some n ∧ parseInt r2.sold = some (n + s) ∧ n < n + s) := by
  refine ⟨?_, ?_, ?_, ?_⟩
  · intro ops
    exact foldl_soldOK ops ⟨[], []⟩ (by intro r hr; simp at hr)
  · intro inp items items2 nid h
    obtain ⟨q, p, -, -, -, -, hshape⟩ := add_item_ok_shape inp items items2 nid h
    exact ⟨_, hshape, rfl⟩
  · intro item_id inp items items2 h
    exact updateLoop_sold item_id inp items items2 (update_item_ok_loop _ _ _ _ h)
  · intro today item_id data w w2 s h
    obtain ⟨raw, -, -, hp, hpos, pair, hloop, hw2⟩ :=
      sell_item_ok_shape today item_id data w w2 s h
    refine ⟨hpos, ?_⟩
    obtain ⟨pre, r, post, pair2, hl, -, -, hchk, hl2, -⟩ :=
      sellLoop_found_shape item_id s today w.inventory pair.1 pair.2 (by rw [hloop])
    obtain ⟨q, p2, n, t, -, -, -, hn, -, hpair1, -⟩ :=
      sellCheck_ok_shape item_id s today r pair2 hchk
    refine ⟨pre, post, r, pair2.1, n, hl, ?_, hn, ?_, by omega⟩
    · rw [hw2]
      exact hl2
    · rw [hpair1]
      exact parseInt_intToStr (n + s)

/-! ## Sales aggregation -/

theorem sumFor_cons (f : SaleEntry → Int) (r : SaleEntry) (rest : List SaleEntry)
    (d : String) :
    sumFor f (r :: rest) d = (if r.date = d then f r else 0) + sumFor f rest d := by
  rw [sumFor, List.filter_cons]
  by_cases h : r.date = d
  · simp [h, sumFor]
  · simp [h, sumFor]

theorem addSale_lookup (acc : List (String × Int)) (date : String) (qty : Int)
    (d : String) :
    dlookup d (addSale acc date qty) =
      (if d = date then some ((dlookup d acc).getD 0 + qty) else dlookup d acc) := by
  induction acc with
  | nil =>
    by_cases h : d = date
    · subst h
      simp [addSale, dlookup]
    · have h2 : ¬date = d := fun hh => h hh.symm
      simp [addSale, dlookup, h, h2]
  | cons pair rest ih =>
    obtain ⟨d2, q⟩ := pair
    by_cases h2 : d2 = date
    · subst h2
      simp only [addSale, if_pos rfl]
      by_cases h : d2 = d
      · subst h
        simp [dlookup]
      · have h3 : ¬d = d2 := fun hh => h hh.symm
        simp [dlookup, h, h3]
    · simp only [addSale, if_neg h2]
      by_cases h : d2 = d
      · subst h
        simp [dlookup, h2]
      · simp [dlookup, h, ih]

theorem addSale_keys (acc : List (String × Int)) (date : String) (qty : Int) :
    (addSale acc date qty).map Prod.fst =
      (if date ∈ acc.map Prod.fst then acc.map Prod.fst
       else acc.map Prod.fst ++ [date]) := by
  induction acc with
  | nil => simp [addSale]
  | cons pair rest ih =>
    obtain ⟨d2, q⟩ := pair
    by_cases h2 : d2 = date
    · subst h2
      simp [addSale]
    · have h3 : ¬date = d2 := fun hh => h2 hh.symm
      simp only [addSale, if_neg h2, List.map_cons, ih]
      by_cases hmem : date ∈ rest.map Prod.fst
      · simp [hmem, h3]
      · simp [hmem, h3]

theorem addSale_nodup (acc : List (String × Int)) (date : String) (qty : Int)
    (h : (acc.map Prod.fst).Nodup) : ((addSale acc date qty).map Prod.fst).Nodup := by
  rw [addSale_keys]
  split
  · exact h
  · rename_i hmem
    rw [List.nodup_append]
    refine ⟨h, List.nodup_singleton date, fun x hx hx2 => ?_⟩
    have hxd : x = date := by simpa using hx2
    subst hxd
    exact hmem hx

theorem addSale_mem (acc : List (String × Int)) (date : String) (qty : Int)
    (d : String) :
    d ∈ (addSale acc date qty).map Prod.fst ↔ d ∈ acc.map Prod.fst ∨ d = date := by
  rw [addSale_keys]
  split
  · rename_i hmem
    constructor
    · exact fun h => Or.inl h
    · rintro (h | rfl)
      · exact h
      · exact hmem
  · simp

theorem dlookup_none_iff (d : String) (l : List (String × Int)) :
    dlookup d l = none ↔ d ∉ l.map Prod.fst := by
  induction l with
  | nil => simp [dlookup]
  | cons pair rest ih =>
    obtain ⟨d2, q⟩ := pair
    by_cases h : d2 = d
    · subst h
      simp [dlookup]
    · have h2 : ¬d = d2 := fun hh => h hh.symm
      simp [dlookup, h, ih, h2]

theorem dlookup_of_mem_nodup (d : String) (t : Int) (l : List (String × Int))
    (hmem : (d, t) ∈ l) (hnd : (l.map Prod.fst).Nodup) : dlookup d l = some t := by
  induction l with
  | nil => simp at hmem
  | cons pair rest ih =>
    obtain ⟨d2, q⟩ := pair
    rw [List.map_cons] at hnd
    have hnd2 := List.nodup_cons.mp hnd
    rcases List.mem_cons.mp hmem with heq | hmem2
    · injection heq with h1 h2
      subst h1
      subst h2
      simp [dlookup]
    · have hne : ¬d2 = d := by
        rintro rfl
        exact hnd2.1 (List.mem_map.mpr ⟨(d2, t), hmem2, rfl⟩)
      simp [dlookup, hne, ih hmem2 hnd2.2]

theorem buildSales_spec (f : SaleEntry → Int) :
    ∀ rows : List SaleEntry, (∀ r ∈ rows, parseInt r.sold_quantity = some (f r)) →
    ∀ acc : List (String × Int), ∃ acc2, buildSales rows acc = some acc2 ∧
      (∀ d, dlookup d acc2 =
        (if d ∈ rows.map SaleEntry.date ∨ d ∈ acc.map Prod.fst
         then some ((dlookup d acc).getD 0 + sumFor f rows d) else none)) ∧
      ((acc.map Prod.fst).Nodup → (acc2.map Prod.fst).Nodup) ∧
      (∀ d, d ∈ acc2.map Prod.fst ↔ d ∈ acc.map Prod.fst ∨ d ∈ rows.map SaleEntry.date) := by
  intro rows
  induction rows with
  | nil =>
    intro _ acc
    refine ⟨acc, rfl, ?_, fun h => h, fun d => by simp⟩
    intro d
    by_cases hmem : d ∈ acc.map Prod.fst
    · rw [if_pos (Or.inr hmem)]
      cases hl : dlookup d acc with
      | none => exact absurd ((dlookup_none_iff d acc).mp hl) (by simpa using hmem)
      | some v => simp [sumFor]
    · rw [if_neg (by simp [hmem])]
      exact (dlookup_none_iff d acc).mpr hmem
  | cons r rest ih =>
    intro hf acc
    have hfr : parseInt r.sold_quantity = some (f r) := hf r (by simp)
    have hfrest : ∀ x ∈ rest, parseInt x.sold_quantity = some (f x) :=
      fun x hx => hf x (by simp [hx])
    obtain ⟨acc2, hb, hlook, hnd, hmem⟩ := ih hfrest (addSale acc r.date (f r))
    refine ⟨acc2, ?_, ?_, ?_, ?_⟩
    · simpa [buildSales, hfr] using hb
    · intro d
      rw [hlook d]
      by_cases hd : d = r.date
      · rw [if_pos (Or.inr ((addSale_mem acc r.date (f r) d).mpr (Or.inr hd)))]
        rw [if_pos (Or.inl (by simp [hd]))]
        rw [addSale_lookup, if_pos hd, sumFor_cons, if_pos hd.symm]
        simp only [Option.getD_some]
        congr 1
        omega
      · have h2 : dlookup d (addSale acc r.date (f r)) = dlookup d acc := by
          rw [addSale_lookup, if_neg hd]
        have hsum : sumFor f (r :: rest) d = sumFor f rest d := by
          rw [sumFor_cons, if_neg (fun hh => hd hh.symm)]
          simp
        have hc : (d ∈ rest.map SaleEntry.date ∨
              d ∈ (addSale acc r.date (f r)).map Prod.fst) ↔
            (d ∈ (r :: rest).map SaleEntry.date ∨ d ∈ acc.map Prod.fst) := by
          rw [addSale_mem]
          simp only [List.map_cons, List.mem_cons]
          tauto
        rw [h2, hsum]
        by_cases hcond : d ∈ (r :: rest).map SaleEntry.date ∨ d ∈ acc.map Prod.fst
        · rw [if_pos (hc.mpr hcond), if_pos hcond]
        · rw [if_neg (fun hh => hcond (hc.mp hh)), if_neg hcond]
    · intro hok
      exact hnd (addSale_nodup acc r.date (f r) hok)
    · intro d
      rw [hmem d, addSale_mem]
      simp only [List.map_cons, List.mem_cons]
      tauto

/-- **C7**: SalesByDate returns one (date, total) pair per distinct
ledger date, with the total summing the sold quantities of that date,
sorted strictly ascending by date. -/
theorem sales_history_spec (rows : List SaleEntry) (f : SaleEntry → Int)
    (hf : ∀ r ∈ rows, parseInt r.sold_quantity = some (f r)) :
    ∃ out, sales_history rows = some out ∧
      List.Pairwise (fun a b : String × Int => a.1 < b.1) out ∧
      (∀ d, (∃ t, (d, t) ∈ out) ↔ d ∈ rows.map SaleEntry.date) ∧
      (∀ d t, (d, t) ∈ out → t = sumFor f rows d) := by
  obtain ⟨acc2, hbuild, hlook, hnodup, hmem⟩ := buildSales_spec f rows hf []
  have hnd : (acc2.map Prod.fst).Nodup := hnodup (by simp)
  have hperm := List.perm_insertionSort (fun a b : String × Int => a.1 ≤ b.1) acc2
  refine ⟨List.insertionSort (fun a b : String × Int => a.1 ≤ b.1) acc2, ?_, ?_, ?_, ?_⟩
  · rw [sales_history, hbuild]
    rfl
  · have hsorted : List.Sorted (fun a b : String × Int => a.1 ≤ b.1)
        (List.insertionSort (fun a b : String × Int => a.1 ≤ b.1) acc2) := by
      haveI : IsTotal (String × Int) (fun a b : String × Int => a.1 ≤ b.1) :=
        ⟨fun a b => le_total a.1 b.1⟩
      haveI : IsTrans (String × Int) (fun a b : String × Int => a.1 ≤ b.1) :=
        ⟨fun a b c h1 h2 => le_trans h1 h2⟩
      exact List.sorted_insertionSort _ _
    have hndout : ((List.insertionSort (fun a b : String × Int => a.1 ≤ b.1) acc2).map
        Prod.fst).Nodup := ((hperm.map Prod.fst).nodup_iff).mpr hnd
    have hne : List.Pairwise (fun a b : String × Int => a.1 ≠ b.1)
        (List.insertionSort (fun a b : String × Int => a.1 ≤ b.1) acc2) :=
      List.pairwise_map.mp hndout
    exact (hsorted.and hne).imp (fun hab => lt_of_le_of_ne hab.1 hab.2)
  · intro d
    constructor
    · rintro ⟨t, ht⟩
      have hin : (d, t) ∈ acc2 := hperm.mem_iff.mp ht
      have hdk : d ∈ acc2.map Prod.fst := List.mem_map.mpr ⟨(d, t), hin, rfl⟩
      exact ((hmem d).mp hdk).resolve_left (by simp)
    · intro hd
      have hdk : d ∈ acc2.map Prod.fst := (hmem d).mpr (Or.inr hd)
      obtain ⟨⟨d2, t⟩, hmem2, heq⟩ := List.mem_map.mp hdk
      cases heq
      exact ⟨t, hperm.mem_iff.mpr hmem2⟩
  · intro d t ht
    have hin : (d, t) ∈ acc2 := hperm.mem_iff.mp ht
    have hl : dlookup d acc2 = some t := dlookup_of_mem_nodup d t acc2 hin hnd
    rw [hlook d] at hl
    split at hl
    · simp only [dlookup, Option.getD_none] at hl
      have := Option.some_injective _ hl
      omega
    · exact absurd hl (by simp)

/-- Concrete instance of the sales aggregation: two dates, the earlier
one with two ledger rows. -/
theorem sales_history_spec_witness :
    ∃ out, sales_history rowsW = some out ∧
      List.Pairwise (fun a b : String × Int => a.1 < b.1) out ∧
      (∀ d, (∃ t, (d, t) ∈ out) ↔ d ∈ rowsW.map SaleEntry.date) ∧
      (∀ d t, (d, t) ∈ out → t = sumFor qtyOf rowsW d) :=
  sales_history_spec rowsW qtyOf (by decide)

/-- Concrete instance of the sold-counter behaviour: selling 3 units of
record 001 takes the counter from 0 to 3. -/
theorem sold_counter_spec_witness :
    0 < (3 : Int) ∧ ∃ pre post : List Item, ∃ r r2 : Item, ∃ n : Int,
      worldAB.inventory = pre ++ r :: post ∧
      ((⟨[⟨"001", "Vinyl", "17", "$5.5", "93.5", "3"⟩, itemB],
        [⟨"2026-10-12", "001", "Vinyl", "3", "16.5"⟩]⟩ : World)).inventory =
          pre ++ r2 :: post ∧
      parseInt r.sold = some n ∧ parseInt r2.sold = some (n + 3) ∧ n < n + 3 :=
  sold_counter_spec.2.2.2 "2026-10-12" "001" (some "3") worldAB _ 3
    (by with_unfolding_all decide)

end Inventory
